import Mathlib

/-!
Verification of the audio core of the Nexus V2 browser client.

The development shallowly embeds the repository's audio pipeline:
  * `src/utils/audioUtils.ts` — the PCM codec (`float32ToBase64`,
    `base64ToAudioBuffer`), including the browser's `btoa`/`atob`
    base64 primitives that it calls;
  * the live-voice component (`playAudioResponse`, `stopAudioOutput`,
    `handleLiveMessage`, `handleSendText`);
  * `src/components/AudioPlayer.tsx` — the debounced narration loader
    and its process-wide cache.

Audio samples are modelled as rationals (the JS floats of interest in
the claims are dyadic rationals on which the JS arithmetic is exact),
16-bit machine integers as `Int` with the explicit `% 2^16` wrap that
`Int16Array` assignment performs, and fallible code as `Except`.
-/

namespace NexusAudio

/-! ## Base64 (`btoa` / `atob`) -/

/-- The base64 alphabet, in index order, as used by `btoa`/`atob`. -/
def base64Alphabet : List Char :=
  "ABCDEFGHIJKLMNOPQRSTUVWXYZabcdefghijklmnopqrstuvwxyz0123456789+/".toList

/-- Character encoding a six-bit group. -/
def sextetChar (n : Nat) : Char := base64Alphabet.getD n 'A'

/-- Six-bit value of an alphabet character; `none` for characters
outside the alphabet (`atob` raises on those). -/
def charSextet (c : Char) : Option Nat := base64Alphabet.findIdx? (· = c)

/-- The output of `btoa` for a byte list: big-endian packing of each group of
up to three bytes into four characters, `=`-padded. -/
def encodeB64 : List Nat → List Char
  | [] => []
  | [b1] => [sextetChar (b1 / 4), sextetChar (b1 % 4 * 16), '=', '=']
  | [b1, b2] => [sextetChar (b1 / 4), sextetChar (b1 % 4 * 16 + b2 / 16),
                 sextetChar (b2 % 16 * 4), '=']
  | b1 :: b2 :: b3 :: rest =>
      sextetChar (b1 / 4) :: sextetChar (b1 % 4 * 16 + b2 / 16) ::
      sextetChar (b2 % 16 * 4 + b3 / 64) :: sextetChar (b3 % 64) ::
      encodeB64 rest

/-- Model of `btoa`: binary string (bytes) to base64 string. -/
def btoa (bytes : List Nat) : String := String.mk (encodeB64 bytes)

/-- Token view of a base64 character: a six-bit value or the `=` pad. -/
inductive B64Tok where
  | val (n : Nat)
  | pad
deriving DecidableEq

/-- Classify one character for `atob`; `none` means `atob` raises
`InvalidCharacterError`. -/
def tokOf (c : Char) : Option B64Tok :=
  if c = '=' then some B64Tok.pad else (charSextet c).map B64Tok.val

/-- ASCII whitespace that forgiving-base64 (`atob`) strips. -/
def isB64Ws (c : Char) : Bool :=
  c = ' ' || c = '\t' || c = '\n' || c = '\x0c' || c = '\r'

/-- Decode a token stream four tokens at a time; padded or unpadded
final groups of two or three data characters yield one or two bytes. -/
def decodeToks : List B64Tok → Option (List Nat)
  | [] => some []
  | [B64Tok.val s1, B64Tok.val s2] =>
      some [s1 * 4 + s2 / 16]
  | [B64Tok.val s1, B64Tok.val s2, B64Tok.pad, B64Tok.pad] =>
      some [s1 * 4 + s2 / 16]
  | [B64Tok.val s1, B64Tok.val s2, B64Tok.val s3] =>
      some [s1 * 4 + s2 / 16, s2 % 16 * 16 + s3 / 4]
  | [B64Tok.val s1, B64Tok.val s2, B64Tok.val s3, B64Tok.pad] =>
      some [s1 * 4 + s2 / 16, s2 % 16 * 16 + s3 / 4]
  | B64Tok.val s1 :: B64Tok.val s2 :: B64Tok.val s3 :: B64Tok.val s4 :: rest =>
      (decodeToks rest).map
        (fun bs => (s1 * 4 + s2 / 16) :: (s2 % 16 * 16 + s3 / 4) ::
                   (s3 % 4 * 64 + s4) :: bs)
  | _ => none

/-- Sequential `tokOf` over a character list: the scanning loop of
`atob`, failing on the first character outside the alphabet. -/
def tokList : List Char → Option (List B64Tok)
  | [] => some []
  | c :: cs => (tokOf c).bind fun t => (tokList cs).bind fun ts => some (t :: ts)

/-- Model of `atob`: base64 string to bytes; `none` models the thrown
`InvalidCharacterError` of the browser primitive. -/
def atob (s : String) : Option (List Nat) :=
  (tokList (s.toList.filter (fun c => !isB64Ws c))).bind decodeToks

/-! ## PCM sample conversion (`float32ToBase64` / `base64ToAudioBuffer`) -/

/-- Truncation toward zero, as JS `ToIntegerOrInfinity` performs on a
finite number. -/
def truncTowardZero (q : ℚ) : ℤ := if 0 ≤ q then ⌊q⌋ else ⌈q⌉

/-- The clamp `Math.max(-1, Math.min(1, s))` from `float32ToBase64`. -/
def clampSample (s : ℚ) : ℚ := max (-1) (min 1 s)

/-- The scaled value before 16-bit wrap: clamped sample times `0x8000`
when negative, `0x7FFF` otherwise, truncated toward zero. -/
def rawScaled (s : ℚ) : ℤ :=
  let c := clampSample s
  truncTowardZero (if c < 0 then c * 32768 else c * 32767)

/-- The `ToInt16` wrap performed by assignment into an `Int16Array`:
reduce modulo `2^16` into `[-32768, 32767]`. -/
def toInt16Wrap (x : ℤ) : ℤ := (x + 32768) % 65536 - 32768

/-- One sample of `float32ToBase64`'s `Int16Array`. -/
def sampleToInt16 (s : ℚ) : ℤ := toInt16Wrap (rawScaled s)

/-- Little-endian bytes of one `Int16Array` element as seen through the
backing buffer's `Uint8Array` view. -/
def int16ToBytes (i : ℤ) : List Nat :=
  let u := (i % 65536).toNat
  [u % 256, u / 256]

/-- Model of `float32ToBase64` (src/utils/audioUtils.ts): clamp and scale each
sample to a 16-bit integer, view the pairs of bytes little-endian, and
base64-encode the byte string. -/
def float32ToBase64 (data : List ℚ) : String :=
  btoa (data.map (fun s => int16ToBytes (sampleToInt16 s))).flatten

/-- The `Int16Array` view of an even-length byte buffer: little-endian
pairs, reinterpreted as signed 16-bit values. -/
def bytesToInt16 : List Nat → List ℤ
  | lo :: hi :: rest =>
      (let u := lo + 256 * hi
       if u < 32768 then (u : ℤ) else (u : ℤ) - 65536) :: bytesToInt16 rest
  | _ => []

/-- Model of `base64ToAudioBuffer` (src/utils/audioUtils.ts): base64-decode,
reinterpret the bytes as an `Int16Array` — which throws a `RangeError`
when the byte length is odd — and divide each value by `32768.0`.
The sample-rate argument only tags the returned buffer and is omitted. -/
def base64ToAudioBuffer (b64 : String) : Except String (List ℚ) :=
  (atob b64).elim (Except.error "InvalidCharacterError") fun bytes =>
    if bytes.length % 2 = 0 then
      Except.ok ((bytesToInt16 bytes).map (fun i : ℤ => (i : ℚ) / 32768))
    else
      Except.error "RangeError"

/-- Duration in seconds of a decoded mono buffer at 24 kHz. -/
def bufferDuration (samples : List ℚ) : ℚ := samples.length / 24000

/-! ## Base64 round-trip -/

theorem charSextet_sextetChar : ∀ n : Nat, n < 64 → charSextet (sextetChar n) = some n := by
  decide

theorem sextetChar_ne_pad : ∀ n : Nat, n < 64 → sextetChar n ≠ '=' := by
  decide

theorem isB64Ws_sextetChar : ∀ n : Nat, n < 64 → isB64Ws (sextetChar n) = false := by
  decide

theorem tokOf_sextetChar (n : Nat) (h : n < 64) :
    tokOf (sextetChar n) = some (B64Tok.val n) := by
  simp [tokOf, sextetChar_ne_pad n h, charSextet_sextetChar n h]

theorem tokOf_pad : tokOf '=' = some B64Tok.pad := rfl

theorem isB64Ws_pad : isB64Ws '=' = false := rfl

theorem filter_ws_encodeB64 (l : List Nat) (h : ∀ b ∈ l, b < 256) :
    (encodeB64 l).filter (fun c => !isB64Ws c) = encodeB64 l := by
  match l with
  | [] => rfl
  | [b1] =>
      have hb1 : b1 < 256 := h b1 (by simp)
      simp [encodeB64, List.filter,
        isB64Ws_sextetChar (b1 / 4) (by omega),
        isB64Ws_sextetChar (b1 % 4 * 16) (by omega), isB64Ws_pad]
  | [b1, b2] =>
      have hb1 : b1 < 256 := h b1 (by simp)
      have hb2 : b2 < 256 := h b2 (by simp)
      simp [encodeB64, List.filter,
        isB64Ws_sextetChar (b1 / 4) (by omega),
        isB64Ws_sextetChar (b1 % 4 * 16 + b2 / 16) (by omega),
        isB64Ws_sextetChar (b2 % 16 * 4) (by omega), isB64Ws_pad]
  | b1 :: b2 :: b3 :: rest =>
      have hb1 : b1 < 256 := h b1 (by simp)
      have hb2 : b2 < 256 := h b2 (by simp)
      have hb3 : b3 < 256 := h b3 (by simp)
      have ih := filter_ws_encodeB64 rest (fun b hb => h b (by simp [hb]))
      simp [encodeB64, List.filter,
        isB64Ws_sextetChar (b1 / 4) (by omega),
        isB64Ws_sextetChar (b1 % 4 * 16 + b2 / 16) (by omega),
        isB64Ws_sextetChar (b2 % 16 * 4 + b3 / 64) (by omega),
        isB64Ws_sextetChar (b3 % 64) (by omega), ih]

theorem decodeToks_tokList_encodeB64 (l : List Nat) (h : ∀ b ∈ l, b < 256) :
    (tokList (encodeB64 l)).bind decodeToks = some l := by
  match l with
  | [] => rfl
  | [b1] =>
      have hb1 : b1 < 256 := h b1 (by simp)
      simp [encodeB64, tokList,
        tokOf_sextetChar (b1 / 4) (by omega),
        tokOf_sextetChar (b1 % 4 * 16) (by omega), tokOf_pad, decodeToks]
      omega
  | [b1, b2] =>
      have hb1 : b1 < 256 := h b1 (by simp)
      have hb2 : b2 < 256 := h b2 (by simp)
      simp [encodeB64, tokList,
        tokOf_sextetChar (b1 / 4) (by omega),
        tokOf_sextetChar (b1 % 4 * 16 + b2 / 16) (by omega),
        tokOf_sextetChar (b2 % 16 * 4) (by omega), tokOf_pad, decodeToks]
      omega
  | b1 :: b2 :: b3 :: rest =>
      have hb1 : b1 < 256 := h b1 (by simp)
      have hb2 : b2 < 256 := h b2 (by simp)
      have hb3 : b3 < 256 := h b3 (by simp)
      have ih := decodeToks_tokList_encodeB64 rest (fun b hb => h b (by simp [hb]))
      obtain ⟨ts, hts, hdec⟩ := Option.bind_eq_some.mp ih
      simp [encodeB64, tokList,
        tokOf_sextetChar (b1 / 4) (by omega),
        tokOf_sextetChar (b1 % 4 * 16 + b2 / 16) (by omega),
        tokOf_sextetChar (b2 % 16 * 4 + b3 / 64) (by omega),
        tokOf_sextetChar (b3 % 64) (by omega), hts, decodeToks, hdec]
      refine ⟨by omega, by omega, by omega⟩

/-- The model of `atob` inverts that of `btoa` on any byte string. -/
theorem atob_btoa (l : List Nat) (h : ∀ b ∈ l, b < 256) :
    atob (btoa l) = some l := by
  have hfilter := filter_ws_encodeB64 l h
  have hdec := decodeToks_tokList_encodeB64 l h
  have hchars : (btoa l).toList = encodeB64 l := rfl
  rw [atob, hchars, hfilter, hdec]

/-! ## PCM round-trip -/

/-- The little-endian byte stream `float32ToBase64` feeds to `btoa`. -/
def pcmBytes (data : List ℚ) : List Nat :=
  (data.map (fun s => int16ToBytes (sampleToInt16 s))).flatten

theorem float32ToBase64_eq_btoa (data : List ℚ) :
    float32ToBase64 data = btoa (pcmBytes data) := rfl

theorem int16ToBytes_lt (i : ℤ) : ∀ b ∈ int16ToBytes i, b < 256 := by
  have h1 : 0 ≤ i % 65536 := Int.emod_nonneg i (by norm_num)
  have h2 : i % 65536 < 65536 := Int.emod_lt_of_pos i (by norm_num)
  intro b hb
  simp only [int16ToBytes, List.mem_cons, List.not_mem_nil, or_false] at hb
  rcases hb with h | h <;> omega

theorem pcmBytes_lt (data : List ℚ) : ∀ b ∈ pcmBytes data, b < 256 := by
  intro b hb
  simp only [pcmBytes, List.mem_flatten, List.mem_map] at hb
  obtain ⟨_, ⟨s, _, rfl⟩, hmem⟩ := hb
  exact int16ToBytes_lt _ b hmem

theorem pcmBytes_length (data : List ℚ) :
    (pcmBytes data).length = 2 * data.length := by
  induction data with
  | nil => rfl
  | cons s rest ih =>
      have hsplit : pcmBytes (s :: rest) =
          int16ToBytes (sampleToInt16 s) ++ pcmBytes rest := rfl
      rw [hsplit, List.length_append, ih, List.length_cons]
      simp only [int16ToBytes, List.length_cons, List.length_nil]
      omega

theorem clampSample_mem_Icc (s : ℚ) : -1 ≤ clampSample s ∧ clampSample s ≤ 1 := by
  constructor
  · exact le_max_left _ _
  · exact max_le (by norm_num) (min_le_left _ _)

theorem rawScaled_range (s : ℚ) : -32768 ≤ rawScaled s ∧ rawScaled s ≤ 32767 := by
  obtain ⟨hlo, hhi⟩ := clampSample_mem_Icc s
  rw [rawScaled]
  set c := clampSample s with hc
  by_cases hneg : c < 0
  · have hx : ¬ (0 ≤ c * 32768) := by nlinarith
    simp only [if_pos hneg, truncTowardZero, if_neg hx]
    constructor
    · have hle : ((-32768 : ℤ) : ℚ) ≤ c * 32768 := by push_cast; nlinarith
      have := Int.ceil_le_ceil hle
      rwa [Int.ceil_intCast] at this
    · have : c * 32768 ≤ 0 := by nlinarith
      have h0 : ⌈c * 32768⌉ ≤ ⌈(0 : ℚ)⌉ := Int.ceil_le_ceil this
      simp only [Int.ceil_zero] at h0
      omega
  · push_neg at hneg
    have hx : 0 ≤ c * 32767 := by nlinarith
    simp only [if_neg (not_lt.mpr hneg), truncTowardZero, if_pos hx]
    constructor
    · have h0 : ⌊(0 : ℚ)⌋ ≤ ⌊c * 32767⌋ := Int.floor_le_floor hx
      simp only [Int.floor_zero] at h0
      omega
    · have hle : c * 32767 ≤ ((32767 : ℤ) : ℚ) := by push_cast; nlinarith
      have := Int.floor_le_floor hle
      rwa [Int.floor_intCast] at this

theorem sampleToInt16_eq_rawScaled (s : ℚ) : sampleToInt16 s = rawScaled s := by
  obtain ⟨h1, h2⟩ := rawScaled_range s
  rw [sampleToInt16, toInt16Wrap]
  omega

theorem sampleToInt16_range (s : ℚ) :
    -32768 ≤ sampleToInt16 s ∧ sampleToInt16 s ≤ 32767 := by
  rw [sampleToInt16_eq_rawScaled]; exact rawScaled_range s

theorem bytesToInt16_int16ToBytes (i : ℤ) (h1 : -32768 ≤ i) (h2 : i ≤ 32767)
    (rest : List Nat) :
    bytesToInt16 (int16ToBytes i ++ rest) = i :: bytesToInt16 rest := by
  have he1 : 0 ≤ i % 65536 := Int.emod_nonneg i (by norm_num)
  have he2 : i % 65536 < 65536 := Int.emod_lt_of_pos i (by norm_num)
  show bytesToInt16 ((i % 65536).toNat % 256 :: (i % 65536).toNat / 256 :: rest) =
    i :: bytesToInt16 rest
  rw [bytesToInt16]
  refine List.cons_eq_cons.mpr ⟨?_, rfl⟩
  set u : ℕ := (i % 65536).toNat with hu
  have hurec : u % 256 + 256 * (u / 256) = u := by omega
  rw [hurec]
  show (if u < 32768 then (u : ℤ) else (u : ℤ) - 65536) = i
  split <;> omega

theorem bytesToInt16_pcmBytes (data : List ℚ) :
    bytesToInt16 (pcmBytes data) = data.map sampleToInt16 := by
  induction data with
  | nil => rfl
  | cons s rest ih =>
      obtain ⟨h1, h2⟩ := sampleToInt16_range s
      simp only [pcmBytes, List.map_cons, List.flatten_cons] at ih ⊢
      rw [bytesToInt16_int16ToBytes _ h1 h2, ih]

/-- The composite decode-of-encode computes, for any input at all, the
per-sample quantisation map. -/
theorem roundtrip_eval (data : List ℚ) :
    base64ToAudioBuffer (float32ToBase64 data) =
      Except.ok (data.map (fun s => (sampleToInt16 s : ℚ) / 32768)) := by
  rw [float32ToBase64_eq_btoa, base64ToAudioBuffer,
    atob_btoa (pcmBytes data) (pcmBytes_lt data)]
  have hlen : (pcmBytes data).length % 2 = 0 := by
    rw [pcmBytes_length]; omega
  rw [Option.elim_some, if_pos hlen, bytesToInt16_pcmBytes, List.map_map]
  rfl

theorem sample_quantisation_err (s : ℚ) (h1 : -1 ≤ s) (h2 : s ≤ 1) :
    |(sampleToInt16 s : ℚ) / 32768 - s| ≤ 1 / 16384 := by
  have hclamp : clampSample s = s := by
    rw [clampSample, min_eq_right h2, max_eq_right h1]
  rw [sampleToInt16_eq_rawScaled, rawScaled]
  simp only [hclamp]
  by_cases hneg : s < 0
  · have hx : ¬ (0 ≤ s * 32768) := by nlinarith
    simp only [if_pos hneg, truncTowardZero, if_neg hx]
    have hc1 : s * 32768 ≤ (⌈s * 32768⌉ : ℚ) := Int.le_ceil _
    have hc2 : (⌈s * 32768⌉ : ℚ) < s * 32768 + 1 := Int.ceil_lt_add_one _
    rw [abs_le]
    constructor <;> linarith
  · push_neg at hneg
    have hx : 0 ≤ s * 32767 := by nlinarith
    simp only [if_neg (not_lt.mpr hneg), truncTowardZero, if_pos hx]
    have hf1 : (⌊s * 32767⌋ : ℚ) ≤ s * 32767 := Int.floor_le _
    have hf2 : s * 32767 - 1 < (⌊s * 32767⌋ : ℚ) := Int.sub_one_lt_floor _
    rw [abs_le]
    constructor <;> linarith

/-- Claim C1, counterexample: the sample `65535/65536` (an exact
float32 value in `[-1,1]`) round-trips to `32766/32768`, an absolute
error of `3/65536`, which exceeds the claimed bound `1/32768`. -/
theorem C1_roundtrip_counterexample :
    base64ToAudioBuffer (float32ToBase64 [(65535 : ℚ) / 65536]) =
      Except.ok [(32766 : ℚ) / 32768] ∧
    ¬ (|(32766 : ℚ) / 32768 - 65535 / 65536| ≤ 1 / 32768) := by
  have hclamp : clampSample ((65535 : ℚ) / 65536) = 65535 / 65536 := by
    rw [clampSample, min_eq_right (by norm_num), max_eq_right (by norm_num)]
  have hraw : rawScaled ((65535 : ℚ) / 65536) = 32766 := by
    rw [rawScaled]
    simp only [hclamp]
    rw [if_neg (by norm_num), truncTowardZero, if_pos (by norm_num)]
    rw [Int.floor_eq_iff]
    constructor <;> norm_num
  have hs : sampleToInt16 ((65535 : ℚ) / 65536) = 32766 := by
    rw [sampleToInt16_eq_rawScaled, hraw]
  constructor
  · rw [roundtrip_eval, List.map_cons, List.map_nil, hs]
    norm_num
  · rw [not_le, abs_of_nonpos (by norm_num)]
    norm_num

/-- Decoding the encoding of `data` succeeds and yields a list of the
same length whose samples each differ from the original by at most
`eps`. -/
def RoundTripsWithin (data : List ℚ) (eps : ℚ) : Prop :=
  match base64ToAudioBuffer (float32ToBase64 data) with
  | Except.ok out =>
      out.length = data.length ∧
      List.Forall₂ (fun o s => |o - s| ≤ eps) out data
  | Except.error _ => False

/-- Claim C1 (amended): decoding the encoding of a sequence of samples
in `[-1,1]` succeeds, preserves the length, and reproduces each sample
within an absolute error of at most `1/16384` (i.e. `2/32768`); the
claimed bound `1/32768` is exceeded by samples just below `+1`, since
positive samples are scaled by `32767` but decoded by dividing by
`32768`. -/
theorem C1_roundtrip_amended (data : List ℚ) (h : ∀ s ∈ data, -1 ≤ s ∧ s ≤ 1) :
    RoundTripsWithin data (1 / 16384) := by
  rw [RoundTripsWithin, roundtrip_eval data]
  refine ⟨by simp, ?_⟩
  rw [List.forall₂_map_left_iff, List.forall₂_same]
  intro s hs
  exact sample_quantisation_err s (h s hs).1 (h s hs).2

/-- Witness for `C1_roundtrip_amended` at the sample list `[1/2]`. -/
theorem C1_roundtrip_amended_witness :
    RoundTripsWithin [(1 : ℚ) / 2] (1 / 16384) :=
  C1_roundtrip_amended [(1 : ℚ) / 2]
    (by intro s hs; rw [List.mem_singleton] at hs; subst hs; constructor <;> norm_num)

/-- Claim C4, counterexample: on the well-formed base64 input `"AA=="`,
whose decoded byte count is 1 (odd), `base64ToAudioBuffer` raises
(the `Int16Array` construction throws a `RangeError`), contradicting
the claim that decoding never raises on malformed input length. -/
theorem C4_decode_totality_counterexample :
    base64ToAudioBuffer "AA==" = Except.error "RangeError" := by
  have hatob : atob "AA==" = some [0] := by decide
  rw [base64ToAudioBuffer, hatob, Option.elim_some, if_neg (by norm_num)]

/-- Claim C4 (amended): `base64ToAudioBuffer` raises exactly on
malformed input: an `InvalidCharacterError` when the base64 itself is
invalid, and a `RangeError` when the decoded byte count is odd; for
every valid base64 input with an even decoded byte count it returns
normally. -/
theorem C4_decode_totality_amended (s : String) :
    (atob s = none → base64ToAudioBuffer s = Except.error "InvalidCharacterError") ∧
    ∀ bytes, atob s = some bytes →
      (bytes.length % 2 = 0 →
        ∃ out, base64ToAudioBuffer s = Except.ok out) ∧
      (bytes.length % 2 ≠ 0 →
        base64ToAudioBuffer s = Except.error "RangeError") := by
  refine ⟨fun hnone => by rw [base64ToAudioBuffer, hnone]; rfl, ?_⟩
  intro bytes hsome
  constructor
  · intro heven
    exact ⟨_, by rw [base64ToAudioBuffer, hsome, Option.elim_some, if_pos heven]⟩
  · intro hodd
    rw [base64ToAudioBuffer, hsome, Option.elim_some, if_neg hodd]

/-- Witness for `C4_decode_totality_amended` at `"AAAA"` (three bytes
would be odd; `"AAAA"` decodes to three bytes, so the odd branch fires). -/
theorem C4_decode_totality_amended_witness :
    base64ToAudioBuffer "AAAA" = Except.error "RangeError" :=
  ((C4_decode_totality_amended "AAAA").2 [0, 0, 0] (by decide)).2 (by decide)

/-- Claim C9: for any input samples, including values outside `[-1,1]`,
every 16-bit integer produced by `float32ToBase64` lies in the signed
16-bit range, and the `Int16Array` conversion never wraps (the clamp
to `[-1,1]` happens before scaling, so the scaled value never
overflows). -/
theorem C9_encode_clamping (data : List ℚ) :
    (∀ i ∈ data.map sampleToInt16, -32768 ≤ i ∧ i ≤ 32767) ∧
    ∀ s ∈ data, sampleToInt16 s = rawScaled s := by
  constructor
  · intro i hi
    rw [List.mem_map] at hi
    obtain ⟨s, _, rfl⟩ := hi
    exact sampleToInt16_range s
  · intro s _
    exact sampleToInt16_eq_rawScaled s

/-- Witness for `C9_encode_clamping` at the out-of-range sample list
`[2, -3/2]`. -/
theorem C9_encode_clamping_witness :
    (-32768 ≤ sampleToInt16 2 ∧ sampleToInt16 2 ≤ 32767) ∧
    sampleToInt16 (-3 / 2 : ℚ) = rawScaled (-3 / 2 : ℚ) :=
  ⟨(C9_encode_clamping [(2 : ℚ), -3 / 2]).1 (sampleToInt16 2)
      (List.mem_map_of_mem sampleToInt16 (by simp)),
   (C9_encode_clamping [(2 : ℚ), -3 / 2]).2 (-3 / 2 : ℚ) (by simp)⟩

/-! ## Playback Scheduler (live streaming mode)

State of the live output path: `next` is `nextStartTimeRef.current`,
`active` is the set of scheduled `AudioBufferSourceNode`s
(`activeSourcesRef.current`), recorded by their chosen start times. -/

structure SchedState where
  next : ℚ
  active : List ℚ
deriving DecidableEq

/-- Model of `playAudioResponse` (live-voice component): choose the start time
from `nextStartTime`, the clock `now` and the active-source count,
start the source there, and advance `nextStartTime` by the buffer's
duration. Returns the chosen start time with the new state. -/
def playAudioResponse (st : SchedState) (now dur : ℚ) : ℚ × SchedState :=
  let n1 : ℚ :=
    if st.next < now then now
    else if st.next > now + 1 / 2 ∧ st.active.length = 0 then now
    else st.next
  (n1, { next := n1 + dur, active := st.active ++ [n1] })

/-- Model of `stopAudioOutput` (live-voice component): stop and remove every
active source, and reset `nextStartTime` to the output clock's
current time. -/
def stopAudioOutput (_st : SchedState) (now : ℚ) : SchedState :=
  { next := now, active := [] }

/-- The `source.onended` callback removes a finished source from the active set. -/
def sourceEnded (st : SchedState) (s : ℚ) : SchedState :=
  { st with active := st.active.erase s }

/-- Claim C2: every streaming enqueue starts the buffer at
`max(nextStartTime, now)` — except that with no active sources and
`nextStartTime` more than 0.5 s ahead of `now` it starts at `now` —
and afterwards `nextStartTime` equals the chosen start plus the
duration.  In particular, enqueuing B1 (1.0 s) at `t0` and B2 (0.5 s)
at any `now2 ∈ [t0, t0+1]` while B1 is still active starts B1 at `t0`
and B2 at exactly `t0 + 1`, gaplessly. -/
theorem C2_enqueue_postcondition :
    (∀ (st : SchedState) (now dur : ℚ),
      (playAudioResponse st now dur).1 =
        (if st.active.length = 0 ∧ st.next > now + 1 / 2 then now
         else max st.next now) ∧
      (playAudioResponse st now dur).2.next = (playAudioResponse st now dur).1 + dur) ∧
    (∀ (st0 : SchedState) (t0 now2 : ℚ), st0.next ≤ t0 →
      t0 ≤ now2 → now2 ≤ t0 + 1 →
      (playAudioResponse st0 t0 1).1 = t0 ∧
      (playAudioResponse (playAudioResponse st0 t0 1).2 now2 (1 / 2)).1 = t0 + 1 ∧
      (playAudioResponse (playAudioResponse st0 t0 1).2 now2 (1 / 2)).2.next =
        t0 + 3 / 2) := by
  constructor
  · intro st now dur
    refine ⟨?_, rfl⟩
    rw [playAudioResponse]
    by_cases hlt : st.next < now
    · have hnotexc : ¬ (st.active.length = 0 ∧ st.next > now + 1 / 2) := by
        rintro ⟨-, hgt⟩; linarith
      rw [if_pos hlt, if_neg hnotexc, max_eq_right (le_of_lt hlt)]
    · push_neg at hlt
      by_cases hexc : st.next > now + 1 / 2 ∧ st.active.length = 0
      · rw [if_neg (not_lt.mpr hlt), if_pos hexc, if_pos ⟨hexc.2, hexc.1⟩]
      · have hexc' : ¬ (st.active.length = 0 ∧ st.next > now + 1 / 2) := by
          rintro ⟨h1, h2⟩; exact hexc ⟨h2, h1⟩
        rw [if_neg (not_lt.mpr hlt), if_neg hexc, if_neg hexc',
          max_eq_left hlt]
  · intro st0 t0 now2 hnext h0 h1
    have hb1 : (playAudioResponse st0 t0 1).1 = t0 := by
      rw [playAudioResponse]
      by_cases hlt : st0.next < t0
      · rw [if_pos hlt]
      · push_neg at hlt
        have heq : st0.next = t0 := le_antisymm hnext hlt
        have hnotexc : ¬ (st0.next > t0 + 1 / 2 ∧ st0.active.length = 0) := by
          rintro ⟨hgt, -⟩; rw [heq] at hgt; linarith
        rw [if_neg (not_lt.mpr hlt), if_neg hnotexc, heq]
    have hst1next : (playAudioResponse st0 t0 1).2.next = t0 + 1 := by
      show (playAudioResponse st0 t0 1).1 + 1 = t0 + 1
      rw [hb1]
    have hst1act : (playAudioResponse st0 t0 1).2.active =
        st0.active ++ [(playAudioResponse st0 t0 1).1] := rfl
    have hb2 : (playAudioResponse (playAudioResponse st0 t0 1).2 now2 (1 / 2)).1 =
        t0 + 1 := by
      rw [playAudioResponse]
      have hnotlt : ¬ ((playAudioResponse st0 t0 1).2.next < now2) := by
        rw [hst1next]; linarith
      have hnotexc : ¬ ((playAudioResponse st0 t0 1).2.next > now2 + 1 / 2 ∧
          (playAudioResponse st0 t0 1).2.active.length = 0) := by
        rintro ⟨-, hlen⟩
        rw [hst1act, List.length_append] at hlen
        simp at hlen
      rw [if_neg hnotlt, if_neg hnotexc, hst1next]
    refine ⟨hb1, hb2, ?_⟩
    show (playAudioResponse (playAudioResponse st0 t0 1).2 now2 (1 / 2)).1 + 1 / 2 =
      t0 + 3 / 2
    rw [hb2]
    ring

/-- Witness for `C2_enqueue_postcondition`, scheduling B1 and B2 from
the idle state `⟨0, []⟩` at `t0 = 0` with the second enqueue at
`now2 = 1/4`. -/
theorem C2_enqueue_postcondition_witness :
    (playAudioResponse ⟨0, []⟩ 0 1).1 = 0 ∧
    (playAudioResponse (playAudioResponse ⟨0, []⟩ 0 1).2 (1 / 4) (1 / 2)).1 = 0 + 1 ∧
    (playAudioResponse (playAudioResponse ⟨0, []⟩ 0 1).2 (1 / 4) (1 / 2)).2.next =
      0 + 3 / 2 :=
  C2_enqueue_postcondition.2 ⟨0, []⟩ 0 (1 / 4) le_rfl (by norm_num) (by norm_num)

/-- Claim C3: `stopAudioOutput` stops and removes every active source
(the active set becomes empty, so no enqueued-but-unstarted buffer
ever plays) and resets `nextStartTime` to the clock's current time;
any enqueue performed at or after the interruption time starts at or
after it, never before. -/
theorem C3_interrupt_semantics (st : SchedState) (t : ℚ) :
    (stopAudioOutput st t).active = [] ∧
    (stopAudioOutput st t).next = t ∧
    ∀ now dur : ℚ, t ≤ now →
      t ≤ (playAudioResponse (stopAudioOutput st t) now dur).1 := by
  refine ⟨rfl, rfl, ?_⟩
  intro now dur hle
  rw [playAudioResponse]
  by_cases hlt : (stopAudioOutput st t).next < now
  · rw [if_pos hlt]; exact hle
  · have hnotexc : ¬ ((stopAudioOutput st t).next > now + 1 / 2 ∧
        (stopAudioOutput st t).active.length = 0) := by
      rintro ⟨hgt, -⟩
      have : (stopAudioOutput st t).next = t := rfl
      rw [this] at hgt; linarith
    rw [if_neg hlt, if_neg hnotexc]
    exact le_refl t

/-- Witness for `C3_interrupt_semantics` interrupting the state
`⟨7, [2, 3]⟩` at time `t = 5` and re-enqueuing at `now = 6`. -/
theorem C3_interrupt_semantics_witness :
    (stopAudioOutput ⟨7, [2, 3]⟩ 5).active = [] ∧
    (stopAudioOutput ⟨7, [2, 3]⟩ 5).next = 5 ∧
    (5 : ℚ) ≤ (playAudioResponse (stopAudioOutput ⟨7, [2, 3]⟩ 5) 6 1).1 :=
  ⟨(C3_interrupt_semantics ⟨7, [2, 3]⟩ 5).1,
   (C3_interrupt_semantics ⟨7, [2, 3]⟩ 5).2.1,
   (C3_interrupt_semantics ⟨7, [2, 3]⟩ 5).2.2 6 1 (by norm_num)⟩

/-! ## Live Session Controller -/

/-- The delayed action a `setTimeout` callback performs. -/
inductive TAction where
  | setAiSpeakingFalse
deriving DecidableEq

/-- A pending `setTimeout`: its delay in milliseconds and its action. -/
structure Timer where
  delayMs : ℕ
  act : TAction
deriving DecidableEq

/-- The fields of a `LiveServerMessage` the handler inspects:
`serverContent.interrupted`, `serverContent.turnComplete`, and the
inline audio payload. -/
structure LiveMsg where
  interrupted : Bool
  turnComplete : Bool
  audioData : Option String

/-- Component state touched by the live handlers: the interruption
flag `isInterruptedRef`, the `aiSpeaking` indicator and the output
scheduler. -/
structure LiveState where
  isInterrupted : Bool
  aiSpeaking : Bool
  sched : SchedState

/-- A fired `setTimeout` callback; the code re-checks `mountedRef`
before touching `aiSpeaking`. -/
def applyTimer (mounted : Bool) (a : TAction) (st : LiveState) : LiveState :=
  match a with
  | TAction.setAiSpeakingFalse =>
      if mounted then { st with aiSpeaking := false } else st

/-- Model of `handleLiveMessage` (live-voice component): an `interrupted` signal
stops output and sets the interruption flag, returning early; a
`turnComplete` signal clears the interruption flag immediately and
schedules a 500 ms `setTimeout` whose callback clears `aiSpeaking`;
then an audio payload, unless the interruption flag is set, is decoded
and enqueued (a decode failure aborts the async handler with no state
change).  Returns the new state and the timers scheduled. -/
def handleLiveMessage (mounted : Bool) (m : LiveMsg) (now : ℚ)
    (st : LiveState) : LiveState × List Timer :=
  if m.interrupted then
    ({ st with sched := stopAudioOutput st.sched now,
               aiSpeaking := if mounted then false else st.aiSpeaking,
               isInterrupted := true }, [])
  else
    let st1 : LiveState :=
      if m.turnComplete then { st with isInterrupted := false } else st
    let timers : List Timer :=
      if m.turnComplete then [⟨500, TAction.setAiSpeakingFalse⟩] else []
    match m.audioData with
    | none => (st1, timers)
    | some b64 =>
        if st1.isInterrupted then (st1, timers)
        else
          match base64ToAudioBuffer b64 with
          | Except.error _ => (st1, timers)
          | Except.ok samples =>
              ({ st1 with
                  aiSpeaking := true,
                  sched := (playAudioResponse st1.sched now
                    (bufferDuration samples)).2 }, timers)

/-- Claim C5, counterexample: on a turn-complete message the handler
clears the interruption flag synchronously — the flag is already false
when the handler returns, before any delay elapses — and the 500 ms
timer it schedules instead clears the `aiSpeaking` indicator, leaving
the interruption flag untouched.  This contradicts the claim that the
flag is cleared after the 500 ms grace delay. -/
theorem C5_turn_complete_counterexample :
    ((handleLiveMessage true ⟨false, true, none⟩ 0 ⟨true, true, ⟨0, []⟩⟩).1.isInterrupted
        = false) ∧
    ((handleLiveMessage true ⟨false, true, none⟩ 0 ⟨true, true, ⟨0, []⟩⟩).2
        = [⟨500, TAction.setAiSpeakingFalse⟩]) ∧
    ((applyTimer true TAction.setAiSpeakingFalse
        (handleLiveMessage true ⟨false, true, none⟩ 0 ⟨true, true, ⟨0, []⟩⟩).1).isInterrupted
        = false) ∧
    ((applyTimer true TAction.setAiSpeakingFalse
        (handleLiveMessage true ⟨false, true, none⟩ 0 ⟨true, true, ⟨0, []⟩⟩).1).aiSpeaking
        = false) :=
  ⟨rfl, rfl, rfl, rfl⟩

/-- Claim C5 (amended): for every inbound live message carrying a
turn-complete signal (and no interrupted signal), the handler clears
the interruption flag immediately, and schedules a 500 ms grace timer
whose callback — not the flag-clearing — declares the assistant
silent by clearing the `aiSpeaking` indicator; the timer's action
never changes the interruption flag. -/
theorem C5_turn_complete_amended (mounted : Bool) (m : LiveMsg) (now : ℚ)
    (st : LiveState) (h1 : m.interrupted = false) (h2 : m.turnComplete = true) :
    (handleLiveMessage mounted m now st).1.isInterrupted = false ∧
    Timer.mk 500 TAction.setAiSpeakingFalse ∈ (handleLiveMessage mounted m now st).2 ∧
    (∀ st' : LiveState,
      (applyTimer mounted TAction.setAiSpeakingFalse st').isInterrupted =
        st'.isInterrupted ∧
      (mounted = true →
        (applyTimer mounted TAction.setAiSpeakingFalse st').aiSpeaking = false)) := by
  have htimer : ∀ st' : LiveState,
      (applyTimer mounted TAction.setAiSpeakingFalse st').isInterrupted =
        st'.isInterrupted ∧
      (mounted = true →
        (applyTimer mounted TAction.setAiSpeakingFalse st').aiSpeaking = false) := by
    intro st'
    constructor
    · rw [applyTimer]
      split <;> rfl
    · intro hm
      rw [applyTimer, if_pos hm]
  refine ⟨?_, ?_, htimer⟩ <;>
  · rcases m with ⟨mi, mt, maud⟩
    subst h1 h2
    rcases maud with _ | b64
    · simp [handleLiveMessage]
    · rcases hdec : base64ToAudioBuffer b64 with e | samples <;>
        simp [handleLiveMessage, hdec]

/-- Witness for `C5_turn_complete_amended` on a turn-complete message
carrying an audio payload, the timer evaluated on the resulting state. -/
theorem C5_turn_complete_amended_witness :
    (handleLiveMessage true ⟨false, true, some "AAA="⟩ 2 ⟨true, false, ⟨0, []⟩⟩).1.isInterrupted
        = false ∧
    Timer.mk 500 TAction.setAiSpeakingFalse ∈
      (handleLiveMessage true ⟨false, true, some "AAA="⟩ 2 ⟨true, false, ⟨0, []⟩⟩).2 ∧
    (applyTimer true TAction.setAiSpeakingFalse
        (handleLiveMessage true ⟨false, true, some "AAA="⟩ 2
          ⟨true, false, ⟨0, []⟩⟩).1).isInterrupted =
      (handleLiveMessage true ⟨false, true, some "AAA="⟩ 2
        ⟨true, false, ⟨0, []⟩⟩).1.isInterrupted ∧
    (applyTimer true TAction.setAiSpeakingFalse
        (handleLiveMessage true ⟨false, true, some "AAA="⟩ 2
          ⟨true, false, ⟨0, []⟩⟩).1).aiSpeaking = false :=
  ⟨(C5_turn_complete_amended true ⟨false, true, some "AAA="⟩ 2
      ⟨true, false, ⟨0, []⟩⟩ rfl rfl).1,
   (C5_turn_complete_amended true ⟨false, true, some "AAA="⟩ 2
      ⟨true, false, ⟨0, []⟩⟩ rfl rfl).2.1,
   ((C5_turn_complete_amended true ⟨false, true, some "AAA="⟩ 2
      ⟨true, false, ⟨0, []⟩⟩ rfl rfl).2.2 _).1,
   ((C5_turn_complete_amended true ⟨false, true, some "AAA="⟩ 2
      ⟨true, false, ⟨0, []⟩⟩ rfl rfl).2.2 _).2 rfl⟩

/-- Model of `handleSendText` (live-voice component), reduced to its effect on
the live-audio state.  After the submit guard (`input` non-empty and
no text request already loading), a submission in voice mode stops
audio output and sets the interruption flag; the remote text exchange
(`textResult`) then either fails — caught and logged — or succeeds,
in which case, still in voice mode and mounted and with an output
context, the response is synthesised (`speechResult`), decoded and
played, any speech failure being swallowed by an inner catch; the
`finally` block always clears the interruption flag. -/
def handleSendText (isVoiceMode mounted hasCtx : Bool) (st : LiveState) (now : ℚ)
    (inputNonempty isTextLoading : Bool)
    (textResult : Except Unit String) (speechResult : Except Unit String) :
    LiveState :=
  if !inputNonempty || isTextLoading then st
  else
    let st1 : LiveState :=
      if isVoiceMode then
        { st with
            sched := stopAudioOutput st.sched now,
            aiSpeaking := if mounted then false else st.aiSpeaking,
            isInterrupted := true }
      else st
    match textResult with
    | Except.error _ => { st1 with isInterrupted := false }
    | Except.ok _ =>
        let st2 : LiveState :=
          if isVoiceMode && mounted then
            match speechResult with
            | Except.error _ => st1
            | Except.ok b64 =>
                if hasCtx then
                  match base64ToAudioBuffer b64 with
                  | Except.error _ => st1
                  | Except.ok samples =>
                      { st1 with
                          sched := (playAudioResponse st1.sched now
                            (bufferDuration samples)).2 }
                else st1
          else st1
        { st2 with isInterrupted := false }

/-- Claim C10: whenever a text submission actually proceeds (non-empty
input, no request in flight), the interruption flag is `false` when
`handleSendText` completes — on the success path, the failure path,
and regardless of voice mode, mount state, output context, or the
outcome of the speech synthesis and decode — because the `finally`
block clears it unconditionally. -/
theorem C10_interruption_flag_reset (isVoiceMode mounted hasCtx : Bool)
    (st : LiveState) (now : ℚ)
    (textResult speechResult : Except Unit String) :
    (handleSendText isVoiceMode mounted hasCtx st now true false
      textResult speechResult).isInterrupted = false := by
  rw [handleSendText]
  simp only [Bool.not_true, Bool.false_or, Bool.false_eq_true, if_false]
  rcases textResult with e | text
  · rfl
  · rfl

/-! ## Narration loader: debounce (AudioPlayer load effect)

`pending` is `loadingTimeoutRef.current` (fire time and the chunk the
timer's `loadAudio` closure targets); `fetches` records, in order, the
chunk ids for which a synthesis fetch has fired. -/

structure DebounceState where
  pending : Option (ℚ × ℕ)
  fetches : List ℕ
deriving DecidableEq

/-- Fire the pending 1-second timer if its deadline has passed by time
`t`: the timer's `loadAudio` runs and, with no cache entry, issues the
synthesis fetch for its chunk. -/
def fireIfDue (t : ℚ) (st : DebounceState) : DebounceState :=
  match st.pending with
  | some (ft, id) =>
      if ft ≤ t then { pending := none, fetches := st.fetches ++ [id] } else st
  | none => st

/-- A chunk-change event at time `t` for chunk `id` (the `[currentChunk,
retryTrigger]` effect): any timer already due has fired beforehand; the
effect cleanup clears the pending timer; then a cache hit loads
immediately with no fetch, while a miss arms a fresh 1-second timer for
the new chunk. -/
def chunkChange (cache : List ℕ) (t : ℚ) (id : ℕ) (st : DebounceState) :
    DebounceState :=
  if id ∈ cache then { fireIfDue t st with pending := none }
  else { fireIfDue t st with pending := some (t + 1, id) }

/-- Process a time-ordered list of chunk-change events. -/
def runEvents (cache : List ℕ) (st : DebounceState) :
    List (ℚ × ℕ) → DebounceState
  | [] => st
  | (t, id) :: rest => runEvents cache (chunkChange cache t id st) rest

/-- The fetches fired by an event sequence once quiescent: run the
events, then let the surviving timer (if any) fire. -/
def finalFetches (cache : List ℕ) (events : List (ℚ × ℕ)) : List ℕ :=
  let st := runEvents cache { pending := none, fetches := [] } events
  st.fetches ++ (match st.pending with
    | some (_, id) => [id]
    | none => [])

/-- Consecutive events are in time order and strictly less than one
second apart, so no 1-second timer fires between them. -/
def RapidFrom (e : ℚ × ℕ) (rest : List (ℚ × ℕ)) : Prop :=
  List.Chain (fun a b => a.1 ≤ b.1 ∧ b.1 < a.1 + 1) e rest

theorem fireIfDue_not_due (t : ℚ) (st : DebounceState) (ft : ℚ) (cid : ℕ)
    (h : st.pending = some (ft, cid)) (hn : ¬ ft ≤ t) : fireIfDue t st = st := by
  obtain ⟨p, f⟩ := st
  simp only at h
  rw [fireIfDue]
  subst h
  simp only [if_neg hn]

theorem chunkChange_miss (cache : List ℕ) (t : ℚ) (id : ℕ) (st : DebounceState)
    (h : id ∉ cache) :
    chunkChange cache t id st =
      { pending := some (t + 1, id), fetches := (fireIfDue t st).fetches } := by
  rw [chunkChange, if_neg h]

theorem runEvents_rapid (cache : List ℕ) :
    ∀ (rest : List (ℚ × ℕ)) (t : ℚ) (id : ℕ) (acc : List ℕ),
      RapidFrom (t, id) rest → (∀ p ∈ rest, p.2 ∉ cache) →
      runEvents cache ⟨some (t + 1, id), acc⟩ rest =
        ⟨some ((rest.getLastD (t, id)).1 + 1, (rest.getLastD (t, id)).2), acc⟩ := by
  intro rest
  induction rest with
  | nil => intro t id acc _ _; rfl
  | cons e2 rest' ih =>
      intro t id acc hchain hmiss
      obtain ⟨t2, id2⟩ := e2
      rw [RapidFrom, List.chain_cons] at hchain
      obtain ⟨⟨hle, hlt⟩, hchain'⟩ := hchain
      simp only at hle hlt
      have hstep : chunkChange cache t2 id2 ⟨some (t + 1, id), acc⟩ =
          ⟨some (t2 + 1, id2), acc⟩ := by
        rw [chunkChange_miss cache t2 id2 _ (hmiss (t2, id2) (by simp)),
          fireIfDue_not_due t2 ⟨some (t + 1, id), acc⟩ (t + 1) id rfl
            (by intro hle'; linarith)]
      rw [runEvents, hstep, ih t2 id2 acc hchain'
        (fun p hp => hmiss p (List.mem_cons_of_mem _ hp)),
        List.getLastD_cons]

/-- Claim C6: for a rapid burst of chunk-change events (each within one
second of the previous) none of whose chunks is cached, exactly one
synthesis fetch fires, and it is for the last chunk of the burst;
moreover each chunk change arriving before the pending timer's
deadline cancels that timer and arms a fresh 1-second timer for the
new chunk, without fetching. -/
theorem C6_debounce :
    (∀ (cache : List ℕ) (e : ℚ × ℕ) (rest : List (ℚ × ℕ)),
      RapidFrom e rest → (∀ p ∈ e :: rest, p.2 ∉ cache) →
      finalFetches cache (e :: rest) = [(rest.getLastD e).2]) ∧
    (∀ (cache : List ℕ) (t' : ℚ) (id' : ℕ) (st : DebounceState) (ft : ℚ) (cid : ℕ),
      st.pending = some (ft, cid) → t' < ft → id' ∉ cache →
      (chunkChange cache t' id' st).pending = some (t' + 1, id') ∧
      (chunkChange cache t' id' st).fetches = st.fetches) := by
  constructor
  · intro cache e rest hchain hmiss
    obtain ⟨t1, id1⟩ := e
    have hfirst : chunkChange cache t1 id1 ⟨none, []⟩ = ⟨some (t1 + 1, id1), []⟩ := by
      rw [chunkChange_miss cache t1 id1 _ (hmiss (t1, id1) (by simp))]
      rfl
    rw [finalFetches, runEvents, hfirst,
      runEvents_rapid cache rest t1 id1 [] hchain
        (fun p hp => hmiss p (List.mem_cons_of_mem _ hp))]
    simp
  · intro cache t' id' st ft cid hpend hlt hmiss
    rw [chunkChange_miss cache t' id' st hmiss,
      fireIfDue_not_due t' st ft cid hpend (by intro hle; linarith)]
    exact ⟨rfl, rfl⟩

/-- Witness for `C6_debounce`: chunks 1, 2, 3 skipped through at times
0, 1/2, 9/10 with an empty cache — one fetch fires, for chunk 3 — and
a cancel/re-arm instance. -/
theorem C6_debounce_witness :
    finalFetches [] [(0, 1), (1 / 2, 2), (9 / 10, 3)] =
      [([((1 : ℚ) / 2, 2), (9 / 10, 3)].getLastD (0, 1)).2] ∧
    (chunkChange [] (1 / 2) 2 ⟨some (1, 1), []⟩).pending = some (1 / 2 + 1, 2) ∧
    (chunkChange [] (1 / 2) 2 ⟨some (1, 1), []⟩).fetches = [] :=
  ⟨C6_debounce.1 [] (0, 1) [(1 / 2, 2), (9 / 10, 3)]
      (by rw [RapidFrom]; refine List.chain_cons.mpr ⟨⟨by norm_num, by norm_num⟩,
        List.chain_cons.mpr ⟨⟨by norm_num, by norm_num⟩, List.Chain.nil⟩⟩)
      (by intro p hp; simp),
   (C6_debounce.2 [] (1 / 2) 2 ⟨some (1, 1), []⟩ 1 1 rfl (by norm_num)
      (by simp)).1,
   (C6_debounce.2 [] (1 / 2) 2 ⟨some (1, 1), []⟩ 1 1 rfl (by norm_num)
      (by simp)).2⟩

/-! ## Narration loader: fetch, cache and error handling -/

/-- The helper `decodeAudio` (AudioPlayer.tsx) is a verbatim copy of the codec's
`base64ToAudioBuffer` logic: `atob`, an `Int16Array` view of the bytes
(throwing a `RangeError` on odd byte counts), division by `32768.0`. -/
def decodeAudio (b64 : String) : Except String (List ℚ) :=
  base64ToAudioBuffer b64

/-- Association-list lookup standing for `audioCache.get(id)`. -/
def lookupCache (cache : List (ℕ × List ℚ)) (id : ℕ) : Option (List ℚ) :=
  (cache.find? (fun p => p.1 == id)).map (fun p => p.2)

/-- Outcome of one `loadAudio` run: the cache afterwards, the
user-facing `error` state, and the `isLoading` flag. -/
structure LoadOutcome where
  cache : List (ℕ × List ℚ)
  error : Option String
  isLoading : Bool
deriving DecidableEq

/-- The error message `loadAudio`'s catch block surfaces. -/
def loadErrorMsg : String := "Cota excedida ou erro de rede."

/-- Model of `loadAudio` (AudioPlayer.tsx): check the cache; on a miss, run the
synthesis fetch (`generateSpeech`, whose outcome is the `fetchResult`
oracle) and decode; a fetch or decode failure is caught, surfacing the
error state and leaving the cache untouched; success appends the
decoded buffer to the cache keyed by the chunk id. -/
def loadAudio (cache : List (ℕ × List ℚ)) (id : ℕ)
    (fetchResult : Except Unit String) : LoadOutcome :=
  match lookupCache cache id with
  | some _ => ⟨cache, none, false⟩
  | none =>
      match fetchResult with
      | Except.error _ => ⟨cache, some loadErrorMsg, false⟩
      | Except.ok b64 =>
          match decodeAudio b64 with
          | Except.error _ => ⟨cache, some loadErrorMsg, false⟩
          | Except.ok samples => ⟨cache ++ [(id, samples)], none, false⟩

/-- Claim C7: when the synthesis fetch or the decode fails for an
uncached chunk, the load surfaces a user-facing error state, clears
the loading flag, and leaves the cache exactly unchanged; the retry
trigger re-runs the identical load path, and a subsequent successful
run populates the cache and reports no error. -/
theorem C7_error_atomicity (cache : List (ℕ × List ℚ)) (id : ℕ)
    (fetchResult : Except Unit String)
    (hmiss : lookupCache cache id = none)
    (hfail : fetchResult = Except.error () ∨
      ∃ b64, fetchResult = Except.ok b64 ∧ ∃ e, decodeAudio b64 = Except.error e) :
    (loadAudio cache id fetchResult).cache = cache ∧
    (loadAudio cache id fetchResult).error = some loadErrorMsg ∧
    (loadAudio cache id fetchResult).isLoading = false ∧
    ∀ (retryFetch : Except Unit String) (b64 : String) (samples : List ℚ),
      retryFetch = Except.ok b64 → decodeAudio b64 = Except.ok samples →
      (loadAudio cache id retryFetch).cache = cache ++ [(id, samples)] ∧
      (loadAudio cache id retryFetch).error = none := by
  have hretry : ∀ (retryFetch : Except Unit String) (b64 : String)
      (samples : List ℚ),
      retryFetch = Except.ok b64 → decodeAudio b64 = Except.ok samples →
      (loadAudio cache id retryFetch).cache = cache ++ [(id, samples)] ∧
      (loadAudio cache id retryFetch).error = none := by
    intro retryFetch b64 samples hr hd
    subst hr
    rw [loadAudio, hmiss, hd]
    exact ⟨rfl, rfl⟩
  rcases hfail with hferr | ⟨b64, hfok, e, hdecerr⟩
  · subst hferr
    rw [loadAudio, hmiss]
    exact ⟨rfl, rfl, rfl, hretry⟩
  · subst hfok
    rw [loadAudio, hmiss, hdecerr]
    exact ⟨rfl, rfl, rfl, hretry⟩

/-- Witness for `C7_error_atomicity`: chunk 1 on an empty cache with a
failing fetch; the retry oracle `"AAA="` decodes to the single zero
sample. -/
theorem C7_error_atomicity_witness :
    (loadAudio [] 1 (Except.error ())).cache = [] ∧
    (loadAudio [] 1 (Except.error ())).error = some loadErrorMsg ∧
    (loadAudio [] 1 (Except.error ())).isLoading = false ∧
    (loadAudio [] 1 (Except.ok "AAA=")).cache = [] ++ [(1, [(0 : ℚ) / 32768])] ∧
    (loadAudio [] 1 (Except.ok "AAA=")).error = none :=
  have h := C7_error_atomicity [] 1 (Except.error ()) rfl (Or.inl rfl)
  have hdec : decodeAudio "AAA=" = Except.ok [(0 : ℚ) / 32768] := by
    have hatob : atob "AAA=" = some [0, 0] := by decide
    rw [decodeAudio, base64ToAudioBuffer, hatob, Option.elim_some,
      if_pos (by norm_num)]
    rfl
  have hr := h.2.2.2 (Except.ok "AAA=") "AAA=" [(0 : ℚ) / 32768] rfl hdec
  ⟨h.1, h.2.1, h.2.2.1, hr.1, hr.2⟩

/-! ## Narration cache: insertion-only invariant

A trace model of the shared `audioCache` and the loaders that write to
it.  A `Flight` is one in-flight `loadAudio` run; its `active` flag is
the effect's captured `active` boolean, cleared by the effect cleanup
(chunk change, retry re-arm, or unmount) so that a superseded flight's
late result is discarded before it can write. -/

structure Flight where
  fid : ℕ
  active : Bool
deriving DecidableEq

/-- A `Map.get`-style lookup in the cache (values are abstract). -/
def lookupKV (l : List (ℕ × ℕ)) (k : ℕ) : Option ℕ :=
  (l.find? (fun p => p.1 == k)).map (fun p => p.2)

/-- Model of `Map.set`: replace the value at an existing key, else append. -/
def setKV (l : List (ℕ × ℕ)) (k : ℕ) (v : ℕ) : List (ℕ × ℕ) :=
  match l with
  | [] => [(k, v)]
  | (k', v') :: rest => if k' = k then (k, v) :: rest else (k', v') :: setKV rest k v

structure CacheSystem where
  cache : List (ℕ × ℕ)
  flights : List Flight
deriving DecidableEq

/-- Events of the loader system: a chunk-change or retry starting a
load (the effect cleanup first deactivates every earlier flight; a
cache hit starts no fetch), an unmount, and the completion — success
with an arbitrary payload, or failure — of the flight at a given
index. -/
inductive CacheEvent where
  | startLoad (id : ℕ)
  | teardown
  | resolveOk (idx : ℕ) (v : ℕ)
  | resolveErr (idx : ℕ)

def deactivate (f : Flight) : Flight := { f with active := false }

def deactivateAt : List Flight → ℕ → List Flight
  | [], _ => []
  | f :: rest, 0 => deactivate f :: rest
  | f :: rest, n + 1 => f :: deactivateAt rest n

def stepCache (st : CacheSystem) : CacheEvent → CacheSystem
  | CacheEvent.startLoad id =>
      let fl := st.flights.map deactivate
      match lookupKV st.cache id with
      | some _ => { st with flights := fl }
      | none => { st with flights := fl ++ [⟨id, true⟩] }
  | CacheEvent.teardown => { st with flights := st.flights.map deactivate }
  | CacheEvent.resolveOk idx v =>
      match st.flights[idx]? with
      | some f =>
          if f.active then
            { cache := setKV st.cache f.fid v, flights := deactivateAt st.flights idx }
          else
            { st with flights := deactivateAt st.flights idx }
      | none => st
  | CacheEvent.resolveErr idx => { st with flights := deactivateAt st.flights idx }

def runCache (st : CacheSystem) : List CacheEvent → CacheSystem
  | [] => st
  | e :: es => runCache (stepCache st e) es

/-- The number of still-active flights. -/
def activeCount (fl : List Flight) : ℕ := (fl.filter (fun f => f.active)).length

/-- The system invariant: at most one flight is active, and an active
flight's chunk is not yet cached (its `loadAudio` saw a cache miss at
start, and nothing can have written that key since). -/
def CacheInv (st : CacheSystem) : Prop :=
  activeCount st.flights ≤ 1 ∧
  ∀ f ∈ st.flights, f.active = true → lookupKV st.cache f.fid = none

def initCache : CacheSystem := ⟨[], []⟩

theorem lookupKV_nil (q : ℕ) : lookupKV [] q = none := rfl

theorem lookupKV_cons (k' v' : ℕ) (rest : List (ℕ × ℕ)) (q : ℕ) :
    lookupKV ((k', v') :: rest) q =
      if k' = q then some v' else lookupKV rest q := by
  by_cases h : k' = q
  · simp [lookupKV, List.find?_cons, h]
  · simp [lookupKV, List.find?_cons, h]

theorem lookupKV_setKV (l : List (ℕ × ℕ)) (k : ℕ) (v : ℕ) (q : ℕ) :
    lookupKV (setKV l k v) q = if k = q then some v else lookupKV l q := by
  induction l with
  | nil =>
      rw [setKV, lookupKV_cons, lookupKV_nil]
  | cons p rest ih =>
      obtain ⟨k', v'⟩ := p
      rw [setKV]
      by_cases hk : k' = k
      · subst hk
        rw [if_pos rfl, lookupKV_cons, lookupKV_cons]
        by_cases hq : k' = q
        · rw [if_pos hq, if_pos hq]
        · rw [if_neg hq, if_neg hq, if_neg hq]
      · rw [if_neg hk, lookupKV_cons, lookupKV_cons, ih]
        by_cases hq : k' = q
        · subst hq
          rw [if_pos rfl, if_neg (fun h => hk h.symm), if_pos rfl]
        · rw [if_neg hq, if_neg hq]

theorem mem_map_deactivate (fl : List Flight) (g : Flight)
    (h : g ∈ fl.map deactivate) : g.active = false := by
  rw [List.mem_map] at h
  obtain ⟨f, -, rfl⟩ := h
  rfl

theorem activeCount_map_deactivate (fl : List Flight) :
    activeCount (fl.map deactivate) = 0 := by
  rw [activeCount, List.length_eq_zero, List.filter_eq_nil_iff]
  intro g hg
  rw [mem_map_deactivate fl g hg]
  exact Bool.false_ne_true

theorem activeCount_nil_of_mem (fl : List Flight) (h : activeCount fl = 0) :
    ∀ g ∈ fl, g.active = false := by
  rw [activeCount, List.length_eq_zero, List.filter_eq_nil_iff] at h
  intro g hg
  exact Bool.not_eq_true _ |>.mp (h g hg)

theorem activeCount_cons (f : Flight) (rest : List Flight) :
    activeCount (f :: rest) =
      (if f.active then 1 else 0) + activeCount rest := by
  rw [activeCount, activeCount, List.filter_cons]
  by_cases h : f.active
  · rw [if_pos h, if_pos h, List.length_cons]; omega
  · rw [if_neg h, if_neg h]
    simp [Bool.not_eq_true _ |>.mp h]

theorem activeCount_deactivateAt_le (fl : List Flight) :
    ∀ idx : ℕ, activeCount (deactivateAt fl idx) ≤ activeCount fl := by
  induction fl with
  | nil => intro idx; cases idx <;> exact le_refl 0
  | cons f rest ih =>
      intro idx
      cases idx with
      | zero =>
          rw [deactivateAt, activeCount_cons, activeCount_cons]
          have : (deactivate f).active = false := rfl
          rw [this]
          by_cases h : f.active <;> simp [h]
      | succ n =>
          rw [deactivateAt, activeCount_cons, activeCount_cons]
          have := ih n
          omega

theorem activeCount_deactivateAt_active (fl : List Flight) :
    ∀ (idx : ℕ) (f : Flight), fl[idx]? = some f → f.active = true →
      activeCount (deactivateAt fl idx) + 1 = activeCount fl := by
  induction fl with
  | nil => intro idx f h _; simp at h
  | cons g rest ih =>
      intro idx f h hact
      cases idx with
      | zero =>
          rw [List.getElem?_cons_zero, Option.some_inj] at h
          subst h
          rw [deactivateAt, activeCount_cons, activeCount_cons, hact]
          have : (deactivate g).active = false := rfl
          rw [this]
          simp only [if_true, if_false, Bool.false_eq_true]
          omega
      | succ n =>
          rw [List.getElem?_cons_succ] at h
          rw [deactivateAt, activeCount_cons, activeCount_cons]
          have := ih n f h hact
          omega

theorem mem_deactivateAt_active (fl : List Flight) :
    ∀ (idx : ℕ) (g : Flight), g ∈ deactivateAt fl idx → g.active = true →
      g ∈ fl := by
  induction fl with
  | nil => intro idx g hg _; cases idx <;> simp [deactivateAt] at hg
  | cons f rest ih =>
      intro idx g hg hact
      cases idx with
      | zero =>
          rw [deactivateAt, List.mem_cons] at hg
          rcases hg with rfl | hg
          · exact absurd hact (by simp [deactivate])
          · exact List.mem_cons_of_mem _ hg
      | succ n =>
          rw [deactivateAt, List.mem_cons] at hg
          rcases hg with rfl | hg
          · exact List.mem_cons_self _ _
          · exact List.mem_cons_of_mem _ (ih n g hg hact)

theorem activeCount_append (a b : List Flight) :
    activeCount (a ++ b) = activeCount a + activeCount b := by
  rw [activeCount, activeCount, activeCount, List.filter_append, List.length_append]

theorem stepCache_inv (st : CacheSystem) (e : CacheEvent) (h : CacheInv st) :
    CacheInv (stepCache st e) := by
  obtain ⟨hcount, hfresh⟩ := h
  cases e with
  | startLoad id =>
      rw [stepCache]
      rcases hm : lookupKV st.cache id with _ | w
      · refine ⟨?_, ?_⟩
        · rw [activeCount_append]
          rw [activeCount_map_deactivate]
          have : activeCount [(⟨id, true⟩ : Flight)] = 1 := rfl
          omega
        · intro f hf hact
          rw [List.mem_append] at hf
          rcases hf with hf | hf
          · exact absurd hact (by rw [mem_map_deactivate _ _ hf]; exact Bool.false_ne_true)
          · rw [List.mem_singleton] at hf
            subst hf
            exact hm
      · refine ⟨?_, ?_⟩
        · rw [activeCount_map_deactivate]; omega
        · intro f hf hact
          exact absurd hact (by rw [mem_map_deactivate _ _ hf]; exact Bool.false_ne_true)
  | teardown =>
      rw [stepCache]
      refine ⟨?_, ?_⟩
      · rw [activeCount_map_deactivate]; omega
      · intro f hf hact
        exact absurd hact (by rw [mem_map_deactivate _ _ hf]; exact Bool.false_ne_true)
  | resolveOk idx v =>
      rw [stepCache]
      rcases hidx : st.flights[idx]? with _ | f
      · exact ⟨hcount, hfresh⟩
      · show CacheInv (if f.active = true then
            (⟨setKV st.cache f.fid v, deactivateAt st.flights idx⟩ : CacheSystem)
          else ⟨st.cache, deactivateAt st.flights idx⟩)
        by_cases hact : f.active
        · rw [if_pos hact]
          have hone := activeCount_deactivateAt_active st.flights idx f hidx hact
          have hzero : activeCount (deactivateAt st.flights idx) = 0 := by omega
          refine ⟨by show activeCount (deactivateAt st.flights idx) ≤ 1; omega, ?_⟩
          intro g hg hgact
          exact absurd hgact
            (by rw [activeCount_nil_of_mem _ hzero g hg]; exact Bool.false_ne_true)
        · rw [if_neg hact]
          refine ⟨le_trans (activeCount_deactivateAt_le st.flights idx) hcount, ?_⟩
          intro g hg hgact
          exact hfresh g (mem_deactivateAt_active st.flights idx g hg hgact) hgact
  | resolveErr idx =>
      rw [stepCache]
      refine ⟨le_trans (activeCount_deactivateAt_le st.flights idx) hcount, ?_⟩
      intro g hg hgact
      exact hfresh g (mem_deactivateAt_active st.flights idx g hg hgact) hgact

theorem stepCache_preserves_entry (st : CacheSystem) (e : CacheEvent) (k v : ℕ)
    (h : CacheInv st) (hk : lookupKV st.cache k = some v) :
    lookupKV (stepCache st e).cache k = some v := by
  obtain ⟨hcount, hfresh⟩ := h
  cases e with
  | startLoad id =>
      rw [stepCache]
      rcases hm : lookupKV st.cache id with _ | w
      · exact hk
      · exact hk
  | teardown => exact hk
  | resolveOk idx v' =>
      rw [stepCache]
      rcases hidx : st.flights[idx]? with _ | f
      · exact hk
      · show lookupKV
            ((if f.active = true then
              (⟨setKV st.cache f.fid v', deactivateAt st.flights idx⟩ : CacheSystem)
            else ⟨st.cache, deactivateAt st.flights idx⟩)).cache k = some v
        by_cases hact : f.active
        · rw [if_pos hact]
          have hmem : f ∈ st.flights := List.getElem?_mem hidx
          have hnone : lookupKV st.cache f.fid = none := hfresh f hmem hact
          have hne : ¬ (f.fid = k) := by
            intro heq
            rw [heq, hk] at hnone
            exact Option.some_ne_none v hnone
          show lookupKV (setKV st.cache f.fid v') k = some v
          rw [lookupKV_setKV, if_neg hne]
          exact hk
        · rw [if_neg hact]
          exact hk
  | resolveErr idx => exact hk

theorem runCache_inv (evs : List CacheEvent) :
    ∀ st : CacheSystem, CacheInv st → CacheInv (runCache st evs) := by
  induction evs with
  | nil => intro st h; exact h
  | cons e es ih =>
      intro st h
      exact ih (stepCache st e) (stepCache_inv st e h)

theorem runCache_preserves_entry (evs : List CacheEvent) :
    ∀ (st : CacheSystem) (k v : ℕ), CacheInv st →
      lookupKV st.cache k = some v →
      lookupKV (runCache st evs).cache k = some v := by
  induction evs with
  | nil => intro st k v _ hk; exact hk
  | cons e es ih =>
      intro st k v h hk
      exact ih (stepCache st e) k v (stepCache_inv st e h)
        (stepCache_preserves_entry st e k v h hk)

theorem initCache_inv : CacheInv initCache := by
  refine ⟨by decide, ?_⟩
  intro f hf
  simp [initCache] at hf

/-- Claim C8: along every reachable interleaving of load starts,
supersessions, retries, teardowns and load completions, once the
shared narration cache holds an entry for a chunk identifier, no later
event overwrites or removes it — even though `Map.set` itself would
overwrite, a write only ever happens from the unique active flight,
which started on a cache miss for a key nothing else can fill first. -/
theorem C8_cache_insertion_only (evs1 evs2 : List CacheEvent) (k v : ℕ)
    (h : lookupKV (runCache initCache evs1).cache k = some v) :
    lookupKV (runCache (runCache initCache evs1) evs2).cache k = some v :=
  runCache_preserves_entry evs2 (runCache initCache evs1) k v
    (runCache_inv evs1 initCache initCache_inv) h

/-- Witness for `C8_cache_insertion_only`: chunk 1 is loaded with
payload 7; a later reload of chunk 1 (cache hit), a load of chunk 2,
its completion, a stale completion and a teardown leave entry 1
untouched. -/
theorem C8_cache_insertion_only_witness :
    lookupKV
      (runCache
        (runCache initCache [CacheEvent.startLoad 1, CacheEvent.resolveOk 0 7])
        [CacheEvent.startLoad 1, CacheEvent.startLoad 2, CacheEvent.resolveOk 1 9,
         CacheEvent.resolveErr 0, CacheEvent.teardown]).cache 1 = some 7 :=
  C8_cache_insertion_only [CacheEvent.startLoad 1, CacheEvent.resolveOk 0 7]
    [CacheEvent.startLoad 1, CacheEvent.startLoad 2, CacheEvent.resolveOk 1 9,
     CacheEvent.resolveErr 0, CacheEvent.teardown] 1 7 (by decide)

end NexusAudio
